import Mathlib

/-!
Verification of the browser-automation core of `browser-mcp`
(`src/app/clients/playwright_client.py` and `src/app/main.py`).

Shallow embedding conventions:
* Python strings are sequences of code points, embedded as `List Char`
  (`PyStr`); Python `len`, slicing and `strip` become `List.length`,
  `take`/`drop` and whitespace trimming on both ends.
* Timestamps are `datetime` instants, a totally ordered type; they are
  embedded as `Nat`.  A `datetime` object is always truthy in Python, so a
  `if time_from:` presence test is embedded as a `match` on `Option Nat`.
* Live DOM nodes reached through the Playwright capability interface are
  embedded as the tree `DomNode`.  Engine-computed per-node answers
  (`is_visible`, `inner_text`, `textContent`, the attribute dictionary, the
  JavaScript CSS-selector synthesis, `query_selector_all(":scope > *")`)
  are carried as fields of the node, since they are produced by the browser
  engine, which this repository calls but does not implement.  The field
  `evalRaises` records that `evaluate`-style capability calls on this node
  raise an engine staleness error; `innerText = none` records that the
  `inner_text` call fails (the code's `except` path).
* Fallible Python code is embedded in `Except`: a raised exception that the
  code does not catch becomes an `Except.error`.
-/

namespace BrowserMcp

/-- A Python string, as a sequence of code points. -/
abbrev PyStr := List Char

/-- Python `str.strip()`: remove whitespace from both ends. -/
def pyStrip (s : PyStr) : PyStr :=
  ((s.dropWhile Char.isWhitespace).reverse.dropWhile Char.isWhitespace).reverse

/-- The three-character ellipsis marker appended by the summarizer
(`playwright_client.py` line 172: `text[:77] + "..."`). -/
def ellipsisMarker : PyStr := "...".data

/-- The truncation step of `_summarize_element`
(`if len(text) > 80: text = text[:77] + "..."`). -/
def truncText (t : PyStr) : PyStr :=
  if 80 < t.length then t.take 77 ++ ellipsisMarker else t

/-- Text post-processing applied by `_summarize_element` to either the
`inner_text` result or the `textContent` fallback:
`text.strip()` followed by the length-80 truncation. -/
def processText (raw : PyStr) : PyStr :=
  truncText (pyStrip raw)

/-- Exceptions relevant to the embedded operations: Playwright's
`TimeoutError`, Python's `AttributeError` (method call on `None`), and an
engine-level staleness error raised by a capability call on a node that
disappeared from the DOM. -/
inductive SErr where
  | staleElement
  | timeoutError
  | attributeError
deriving DecidableEq

/-- A live DOM node as seen through the capability interface.
Field meanings (all engine-computed answers for this node):
`tag` — result of the tag-name `evaluate`;
`visible` — result of `is_visible()`;
`isElement` — result of the `nodeType === ELEMENT_NODE` check;
`innerText` — `some t` when `inner_text()` returns `t`, `none` when that
call raises (the code's `except Exception` path);
`textContent` — result of the `el.textContent || ''` fallback `evaluate`,
also the engine's `text_content()` answer;
`idAttr`/`classAttr`/`typeAttr` — the attribute dictionary
`{id: el.id || '', class: el.className || '', type: el.type || undefined}`;
`selectorStr` — the JavaScript CSS-path synthesis result for an element
node (the script runs engine-side against the whole document);
`evalRaises` — `true` when `evaluate`-style capability calls on this node
raise an engine staleness error;
`children` — `query_selector_all(":scope > *")`, the direct element
children in DOM order. -/
inductive DomNode where
  | mk (tag : PyStr) (visible : Bool) (isElement : Bool)
       (innerText : Option PyStr) (textContent : PyStr)
       (idAttr : PyStr) (classAttr : PyStr) (typeAttr : Option PyStr)
       (selectorStr : PyStr) (evalRaises : Bool)
       (children : List DomNode) : DomNode

/-- Direct element children of a node. -/
def DomNode.children : DomNode → List DomNode
  | .mk _ _ _ _ _ _ _ _ _ _ c => c

/-- The `is_visible()` answer for a node. -/
def DomNode.visible : DomNode → Bool
  | .mk _ v _ _ _ _ _ _ _ _ _ => v

/-- The engine's `text_content()` answer for a node. -/
def DomNode.textContent : DomNode → PyStr
  | .mk _ _ _ _ tc _ _ _ _ _ _ => tc

/-- The summary dictionary built per node by `_summarize_element`:
`{"tag", "text", "id", "class", "type", "selector", "children"}`. -/
inductive Snapshot where
  | mk (tag text idAttr classAttr : PyStr) (typeAttr : Option PyStr)
       (selector : PyStr) (children : List Snapshot) : Snapshot

/-- The `children` list of a summary. -/
def Snapshot.children : Snapshot → List Snapshot
  | .mk _ _ _ _ _ _ c => c

/-- The `text` field of a summary. -/
def Snapshot.text : Snapshot → PyStr
  | .mk _ t _ _ _ _ _ => t

/-- The marker the selector-synthesis script returns for non-element
nodes. -/
def nonElementMarker : PyStr := "[non-element-node]".data

/-- The `try: text = inner_text() ... except: textContent` block of
`_summarize_element` (playwright_client.py lines 168-178): use the
`inner_text` result when that call succeeds, otherwise fall back to the
`el.textContent || ''` evaluate; either way strip then truncate. -/
def extractText (innerText : Option PyStr) (textContent : PyStr) : PyStr :=
  match innerText with
  | some t => processText t
  | none => processText textContent

mutual
/-- `PlaywrightClient._summarize_element(element, depth, visible_only,
max_depth, max_children)` (playwright_client.py lines 140-204).
Steps, in source order: return `None` when `depth > max_depth`; when
`visible_only`, return `None` for an invisible node; the
`nodeType` check is the first `evaluate` on the node, so a staleness error
raised by capability calls surfaces here uncaught; text extraction via
`inner_text` with the `textContent` fallback (strip + truncate either
way, empty for non-element nodes); the attribute dictionary and the CSS
selector (non-element nodes get the sentinel marker); finally the direct
element children: the first `max_children` of them are recursed into with
`depth + 1` and only non-`None` results are appended, in order.  An
uncaught exception during the child loop propagates. -/
def summarize : DomNode → Nat → Bool → Nat → Nat → Except SErr (Option Snapshot)
  | DomNode.mk tag visible isElem innerText textContent idA clsA tyA selStr evalRaises children,
    depth, visibleOnly, maxDepth, maxChildren =>
    if maxDepth < depth then .ok none
    else if visibleOnly && !visible then .ok none
    else if evalRaises then .error .staleElement
    else
      let text : PyStr := if isElem then extractText innerText textContent else []
      let idField : PyStr := if isElem then idA else []
      let classField : PyStr := if isElem then clsA else []
      let typeField : Option PyStr := if isElem then tyA else none
      let selector : PyStr := if isElem then selStr else nonElementMarker
      match summarizeList children maxChildren (depth + 1) visibleOnly maxDepth maxChildren with
      | .error e => .error e
      | .ok kids => .ok (some (.mk tag text idField classField typeField selector kids))
termination_by n _ _ _ _ => sizeOf n

/-- The child loop of `_summarize_element`:
`for child in children[:max_children]` with `if child_summary:
summary["children"].append(child_summary)`.  The slice is embedded as the
`budget` argument (initially `max_children`); a summary dictionary is
always truthy, so the Python truthiness test coincides with the
`Option` test.  An exception raised by a recursive call propagates. -/
def summarizeList : List DomNode → Nat → Nat → Bool → Nat → Nat → Except SErr (List Snapshot)
  | [], _, _, _, _, _ => .ok []
  | _ :: _, 0, _, _, _, _ => .ok []
  | c :: cs, b + 1, depth, vo, mD, mC =>
    match summarize c depth vo mD mC with
    | .error e => .error e
    | .ok none => summarizeList cs b depth vo mD mC
    | .ok (some s) =>
      match summarizeList cs b depth vo mD mC with
      | .error e => .error e
      | .ok rest => .ok (s :: rest)
termination_by l _ _ _ _ _ => sizeOf l
end

/-- The selector-indexed view of the live page used by the read
operations: `find sel` is the element the selector resolves to, `none`
when the selector matches nothing (within the relevant timeout). -/
structure PageModel where
  find : PyStr → Option DomNode

/-- Playwright's `page.query_selector(selector)`: returns the matching
element, or `None` when the selector matches nothing (it does not
raise). -/
def query_selector (p : PageModel) (sel : PyStr) : Option DomNode :=
  p.find sel

/-- Playwright's `page.wait_for_selector(selector, timeout=...)` with the
default `state="visible"`, per the Playwright contract: returns the
element once it is present and visible, and raises `TimeoutError` when
the selector matches nothing (or never becomes visible) within the
timeout.  It returns `None` only when waiting for the `hidden` or
`detached` states, which this call never requests. -/
def wait_for_selector (p : PageModel) (sel : PyStr) : Except SErr (Option DomNode) :=
  match p.find sel with
  | some e => .ok (some e)
  | none => .error .timeoutError

/-- `PlaywrightClient.get_element_text_content(selector, timeout)`
(playwright_client.py lines 281-292), as invoked by the `main.py` tool of
the same name (which adds no `try`/`except`):
`element = await self._page.wait_for_selector(selector, timeout=timeout)`
then `return await element.text_content() if element else ""`. -/
def get_element_text_content (p : PageModel) (sel : PyStr) : Except SErr PyStr :=
  match wait_for_selector p sel with
  | .error e => .error e
  | .ok (some e) => .ok e.textContent
  | .ok none => .ok []

/-- `PlaywrightClient.explore_element_dom(selector, depth, visible_only,
max_depth, max_children)` (playwright_client.py lines 221-231):
`element = await self._page.query_selector(selector)` followed by
`_summarize_element(element, ...)`.  When the selector matches nothing,
`element` is `None` and `_summarize_element(None, ...)` either returns
`None` at the `depth > max_depth` guard (before touching the element) or
raises `AttributeError` at the first method call on `None`
(`None.is_visible()` when `visible_only`, otherwise `None.evaluate`). -/
def explore_element_dom (p : PageModel) (sel : PyStr) (depth : Nat) (vo : Bool)
    (mD mC : Nat) : Except SErr (Option Snapshot) :=
  match query_selector p sel with
  | some e => summarize e depth vo mD mC
  | none => if mD < depth then .ok none else .error .attributeError

/-- The outcome of a `page.wait_for_selector(selector, state=s,
timeout=t)` call, per the Playwright contract: the wait is satisfied and
an element handle is returned (`visible`/`attached` states); the wait is
satisfied and `None` is returned (`hidden`/`detached` states are
satisfied by the element being absent or hidden); or the state is not
reached within the timeout and `TimeoutError` is raised. -/
inductive WaitOutcome where
  | satisfiedWith (e : DomNode)
  | satisfiedNone
  | timedOut

/-- `PlaywrightClient.wait_for_element(selector, state, timeout)`
(playwright_client.py lines 233-249):
`return await self._page.wait_for_selector(selector, timeout=timeout,
state=state)` — no `try`/`except`, so a timeout propagates. -/
def client_wait_for_element : WaitOutcome → Except SErr (Option DomNode)
  | .satisfiedWith e => .ok (some e)
  | .satisfiedNone => .ok none
  | .timedOut => .error .timeoutError

/-- The `main.py` tool `wait_for_element` (lines 140-170): calls the
client method and returns `element is not None` — again with no
`try`/`except`, so a raised `TimeoutError` propagates to the caller. -/
def wait_for_element_tool (o : WaitOutcome) : Except SErr Bool :=
  match client_wait_for_element o with
  | .error e => .error e
  | .ok r => .ok r.isSome

/-- `PlaywrightClient.find_elements(selector, max_depth, max_children,
visible_only)` (playwright_client.py lines 251-270): the list
comprehension `[await self._summarize_element(element, ...) for element
in elements]` over the `query_selector_all` matches — `None` results are
kept in place, an exception aborts the comprehension and propagates. -/
def client_find_elements (matched : List DomNode) (mD mC : Nat) (vo : Bool) :
    Except SErr (List (Option Snapshot)) :=
  match matched with
  | [] => .ok []
  | e :: rest =>
    match summarize e 0 vo mD mC with
    | .error err => .error err
    | .ok s =>
      match client_find_elements rest mD mC vo with
      | .error err => .error err
      | .ok l => .ok (s :: l)

/-- The `main.py` tool `find_elements` (lines 174-223): fetches the full
summary list from the client and applies
`all_elements[offset:offset + limit] if all_elements else []`. -/
def main_find_elements (matched : List DomNode) (mD mC : Nat) (vo : Bool)
    (limit offset : Nat) : Except SErr (List (Option Snapshot)) :=
  match client_find_elements matched mD mC vo with
  | .error e => .error e
  | .ok all => .ok (if all.isEmpty then [] else (all.drop offset).take limit)

/-- The `location` dictionary of a console message. -/
structure LogLocation where
  url : PyStr
  lineNumber : Nat
  columnNumber : Nat
deriving DecidableEq

/-- A console-log buffer entry, as appended by the `page.on("console")`
listener (playwright_client.py lines 55-65). -/
structure ConsoleLogEntry where
  type : PyStr
  text : PyStr
  timestamp : Nat
  location : Option LogLocation
deriving DecidableEq

/-- A network-request buffer entry, as appended by the
`page.on("request")` listener (playwright_client.py lines 69-80). -/
structure NetworkRequestEntry where
  url : PyStr
  method : PyStr
  headers : List (PyStr × PyStr)
  timestamp : Nat
  resourceType : PyStr
deriving DecidableEq

/-- Insertion step of the stable descending sort: walk past entries with
a strictly larger key, so the inserted entry lands before every entry of
equal key that was processed earlier (preserving arrival order among
equal keys). -/
def insertTsDesc (key : α → Nat) (x : α) : List α → List α
  | [] => [x]
  | y :: ys => if key x < key y then y :: insertTsDesc key x ys else x :: y :: ys

/-- Embedding of Python's `sorted(entries, key=..., reverse=True)`.
Python's sort is documented stable, so `reverse=True` produces the unique
permutation that is non-increasing in the key with equal-key entries in
their original order; this insertion sort produces exactly that
permutation (sortedness and stability are proved below). -/
def sortTsDesc (key : α → Nat) : List α → List α
  | [] => []
  | x :: xs => insertTsDesc key x (sortTsDesc key xs)

/-- The time-filtering stage of `get_console_logs` (playwright_client.py
lines 338-348).  A `datetime` is always truthy, so `if time_from:` tests
presence; the filters keep `timestamp >= time_from` and
`timestamp <= time_to`. -/
def consoleTimeFiltered (logs : List ConsoleLogEntry) (time_from time_to : Option Nat) :
    List ConsoleLogEntry :=
  let f1 := match time_from with
    | some t => logs.filter fun log => decide (t ≤ log.timestamp)
    | none => logs
  match time_to with
  | some t => f1.filter fun log => decide (log.timestamp ≤ t)
  | none => f1

/-- `PlaywrightClient.get_console_logs(limit, offset, time_from,
time_to)` (playwright_client.py lines 320-356): time filtering, stable
sort by timestamp newest-first, then the slice
`sorted_logs[offset : offset + limit]`. -/
def get_console_logs (logs : List ConsoleLogEntry) (limit offset : Nat)
    (time_from time_to : Option Nat) : List ConsoleLogEntry :=
  ((sortTsDesc (fun x => x.timestamp) (consoleTimeFiltered logs time_from time_to)).drop
      offset).take limit

/-- The filtering stage of `get_network_requests` (playwright_client.py
lines 378-394): the two time filters, then the resource-type filter.
`if resource_type:` is Python truthiness on a string, so an absent or
empty `resource_type` skips that filter. -/
def networkFiltered (reqs : List NetworkRequestEntry) (time_from time_to : Option Nat)
    (resource_type : Option PyStr) : List NetworkRequestEntry :=
  let f1 := match time_from with
    | some t => reqs.filter fun req => decide (t ≤ req.timestamp)
    | none => reqs
  let f2 := match time_to with
    | some t => f1.filter fun req => decide (req.timestamp ≤ t)
    | none => f1
  match resource_type with
  | some rt => if rt.isEmpty then f2 else f2.filter fun req => req.resourceType == rt
  | none => f2

/-- `PlaywrightClient.get_network_requests(limit, offset, time_from,
time_to, resource_type)` (playwright_client.py lines 358-404):
filtering, stable sort by timestamp newest-first, then the slice
`sorted_requests[offset : offset + limit]`. -/
def get_network_requests (reqs : List NetworkRequestEntry) (limit offset : Nat)
    (time_from time_to : Option Nat) (resource_type : Option PyStr) :
    List NetworkRequestEntry :=
  ((sortTsDesc (fun x => x.timestamp) (networkFiltered reqs time_from time_to
      resource_type)).drop offset).take limit

/-- The keyboard action `press_key` requests from the engine. -/
inductive KeyAction where
  | plain (key : PyStr)
  | withModifier (modifier key : PyStr)
deriving DecidableEq

/-- Python's `str.split(sep)` for a one-character separator: splits on
every occurrence, keeping empty segments (`"".split('+') == [""]`). -/
def pySplit (sep : Char) : PyStr → List PyStr
  | [] => [[]]
  | c :: cs =>
    if c = sep then [] :: pySplit sep cs
    else
      match pySplit sep cs with
      | [] => [[c]]
      | p :: ps => (c :: p) :: ps

/-- `PlaywrightClient.press_key(key)` (playwright_client.py lines
406-421): when the key string contains `'+'`, `parts = key.split('+')`
and the press uses `modifier = parts[0]`, `key_to_press = parts[1]`;
otherwise a plain press.  (`split` on a string containing the separator
always yields at least two parts, so the `getD` defaults are
unreachable.) -/
def press_key (key : PyStr) : KeyAction :=
  if '+' ∈ key then
    let parts := pySplit '+' key
    KeyAction.withModifier (parts.getD 0 []) (parts.getD 1 [])
  else KeyAction.plain key

/-- The resource-handle and buffer state of a `PlaywrightClient`:
which of `_page`, `_context`, `_browser`, `_playwright` are non-`None`,
whether tracing was requested, and the two event buffers. -/
structure ClientState where
  recordTrace : Bool
  hasPage : Bool
  hasContext : Bool
  hasBrowser : Bool
  hasPlaywright : Bool
  consoleLogs : List ConsoleLogEntry
  networkRequests : List NetworkRequestEntry
deriving DecidableEq

/-- Which cleanup-path capability calls raise during one `stop()` run. -/
structure StopRaises where
  tracingStop : Bool
  pageClose : Bool
  contextClose : Bool
  browserClose : Bool
  playwrightStop : Bool
deriving DecidableEq

/-- `PlaywrightClient.stop()` (playwright_client.py lines 82-113).  The
whole teardown sequence — tracing stop, `page.close()`,
`context.close()`, `browser.close()`, `playwright.stop()`, buffer
clearing — sits inside a single `try`; the lone `except` prints and
returns, so the first raising step ends the run with the state exactly
as it was at the raise (each handle is set to `None` only after its
close call returns). -/
def stop (s : ClientState) (r : StopRaises) : ClientState :=
  if s.recordTrace && s.hasContext && r.tracingStop then s
  else if s.hasPage && r.pageClose then s
  else
    let s1 := if s.hasPage then { s with hasPage := false } else s
    if s1.hasContext && r.contextClose then s1
    else
      let s2 := if s1.hasContext then { s1 with hasContext := false } else s1
      if s2.hasBrowser && r.browserClose then s2
      else
        let s3 := if s2.hasBrowser then { s2 with hasBrowser := false } else s2
        if s3.hasPlaywright && r.playwrightStop then s3
        else
          let s4 := if s3.hasPlaywright then { s3 with hasPlaywright := false } else s3
          { s4 with consoleLogs := [], networkRequests := [] }

/-- Every node of a snapshot tree has at most `mC` children. -/
inductive ChildrenBounded (mC : Nat) : Snapshot → Prop where
  | mk : ∀ s : Snapshot, s.children.length ≤ mC →
      (∀ c ∈ s.children, ChildrenBounded mC c) → ChildrenBounded mC s

/-- `DepthBounded n s`: the snapshot tree `s` has height at most `n`
(so with `n = maxDepth + 1` no node lies deeper than `maxDepth` below
the root). -/
inductive DepthBounded : Nat → Snapshot → Prop where
  | mk : ∀ (n : Nat) (s : Snapshot), (∀ c ∈ s.children, DepthBounded n c) →
      DepthBounded (n + 1) s

mutual
/-- `FromVisible n s`: snapshot `s` summarizes the DOM node `n`, and
every node of the snapshot tree comes from a DOM node that passed the
`is_visible()` predicate. -/
inductive FromVisible : DomNode → Snapshot → Prop where
  | mk : ∀ (n : DomNode) (s : Snapshot), n.visible = true →
      FromVisibleKids n.children s.children → FromVisible n s

/-- `FromVisibleKids ms cs`: every snapshot in `cs` summarizes (via
`FromVisible`) some DOM node in `ms`. -/
inductive FromVisibleKids : List DomNode → List Snapshot → Prop where
  | nil : ∀ ms, FromVisibleKids ms []
  | cons : ∀ (ms : List DomNode) (c : Snapshot) (cs : List Snapshot) (m : DomNode),
      m ∈ ms → FromVisible m c → FromVisibleKids ms cs → FromVisibleKids ms (c :: cs)
end

/-- Concrete visible element node with no children (witness input). -/
def domW : DomNode := DomNode.mk "div".data true true (some []) [] [] [] none [] false []

/-- The summary `summarize` produces for `domW`. -/
def snapW : Snapshot := Snapshot.mk "div".data [] [] [] none [] []

/-- Concrete invisible element node (witness input). -/
def domInvisible : DomNode :=
  DomNode.mk "div".data false true (some []) [] [] [] none [] false []

/-- A page on which every selector matches nothing. -/
def emptyPage : PageModel := ⟨fun _ => none⟩

/-- A concrete console-log entry. -/
def logEntryW : ConsoleLogEntry := ⟨"log".data, "hello".data, 5, none⟩

/-- A concrete network-request entry. -/
def reqEntryW : NetworkRequestEntry := ⟨"https://e.com".data, "GET".data, [], 7, "xhr".data⟩

/-- A fully Running client state with nonempty buffers (witness input). -/
def runningState : ClientState :=
  ⟨false, true, true, true, true, [logEntryW], [reqEntryW]⟩

/-- Cleanup behaviour in which only `page.close()` raises. -/
def pageCloseFails : StopRaises := ⟨false, true, false, false, false⟩

/-- Cleanup behaviour in which no step raises. -/
def noStopFailure : StopRaises := ⟨false, false, false, false, false⟩

/-! Helper lemmas about the stable descending sort. -/

theorem mem_insertTsDesc {α : Type} (key : α → Nat) (x y : α) (l : List α) :
    y ∈ insertTsDesc key x l ↔ y = x ∨ y ∈ l := by
  induction l with
  | nil => simp [insertTsDesc]
  | cons z zs ih =>
    by_cases h : key x < key z
    · simp only [insertTsDesc, if_pos h, List.mem_cons, ih]
      tauto
    · simp only [insertTsDesc, if_neg h, List.mem_cons]

theorem pairwise_insertTsDesc {α : Type} (key : α → Nat) (x : α) (l : List α)
    (h : l.Pairwise fun a b => key b ≤ key a) :
    (insertTsDesc key x l).Pairwise fun a b => key b ≤ key a := by
  induction l with
  | nil => simp [insertTsDesc]
  | cons z zs ih =>
    rw [List.pairwise_cons] at h
    obtain ⟨hz, hzs⟩ := h
    by_cases hlt : key x < key z
    · rw [insertTsDesc, if_pos hlt, List.pairwise_cons]
      refine ⟨?_, ih hzs⟩
      intro b hb
      rcases (mem_insertTsDesc key x b zs).1 hb with rfl | hbz
      · exact Nat.le_of_lt hlt
      · exact hz b hbz
    · rw [insertTsDesc, if_neg hlt, List.pairwise_cons]
      refine ⟨?_, List.pairwise_cons.mpr ⟨hz, hzs⟩⟩
      intro b hb
      rcases List.mem_cons.mp hb with rfl | hbz
      · omega
      · exact Nat.le_trans (hz b hbz) (by omega)

theorem pairwise_sortTsDesc {α : Type} (key : α → Nat) (l : List α) :
    (sortTsDesc key l).Pairwise fun a b => key b ≤ key a := by
  induction l with
  | nil => simp [sortTsDesc]
  | cons x xs ih => exact pairwise_insertTsDesc key x _ ih

theorem filter_insertTsDesc {α : Type} (key : α → Nat) (t : Nat) (x : α) (l : List α) :
    (insertTsDesc key x l).filter (fun e => key e == t) =
      if key x == t then x :: l.filter (fun e => key e == t)
      else l.filter (fun e => key e == t) := by
  induction l with
  | nil =>
    simp only [insertTsDesc, List.filter_cons, List.filter_nil]
  | cons z zs ih =>
    by_cases hlt : key x < key z
    · rw [insertTsDesc, if_pos hlt, List.filter_cons, List.filter_cons, ih]
      by_cases hzt : (key z == t) = true
      · by_cases hxt : (key x == t) = true
        · exfalso
          rw [beq_iff_eq] at hzt hxt
          omega
        · simp [hzt, hxt]
      · by_cases hxt : (key x == t) = true
        · simp [hzt, hxt]
        · simp [hzt, hxt]
    · rw [insertTsDesc, if_neg hlt, List.filter_cons, List.filter_cons]

theorem filter_sortTsDesc {α : Type} (key : α → Nat) (t : Nat) (l : List α) :
    (sortTsDesc key l).filter (fun e => key e == t) = l.filter (fun e => key e == t) := by
  induction l with
  | nil => rfl
  | cons x xs ih =>
    rw [sortTsDesc, filter_insertTsDesc, List.filter_cons, ih]

theorem length_insertTsDesc {α : Type} (key : α → Nat) (x : α) (l : List α) :
    (insertTsDesc key x l).length = l.length + 1 := by
  induction l with
  | nil => rfl
  | cons z zs ih =>
    by_cases hlt : key x < key z
    · rw [insertTsDesc, if_pos hlt]
      simp [ih]
    · rw [insertTsDesc, if_neg hlt]
      simp

theorem length_sortTsDesc {α : Type} (key : α → Nat) (l : List α) :
    (sortTsDesc key l).length = l.length := by
  induction l with
  | nil => rfl
  | cons x xs ih => rw [sortTsDesc, length_insertTsDesc, ih, List.length_cons]

theorem consoleTimeFiltered_sublist (logs : List ConsoleLogEntry) (tf tt : Option Nat) :
    List.Sublist (consoleTimeFiltered logs tf tt) logs := by
  unfold consoleTimeFiltered
  rcases tf with _ | t1 <;> rcases tt with _ | t2
  · exact List.Sublist.refl _
  · exact List.filter_sublist _
  · exact List.filter_sublist _
  · exact (List.filter_sublist _).trans (List.filter_sublist _)

theorem networkFiltered_sublist (reqs : List NetworkRequestEntry) (tf tt : Option Nat)
    (rt : Option PyStr) : List.Sublist (networkFiltered reqs tf tt rt) reqs := by
  unfold networkFiltered
  rcases tf with _ | t1 <;> rcases tt with _ | t2 <;> rcases rt with _ | r <;>
    dsimp only <;> try split_ifs
  all_goals
    first
      | exact List.Sublist.refl _
      | exact List.filter_sublist _
      | exact (List.filter_sublist _).trans (List.filter_sublist _)
      | exact ((List.filter_sublist _).trans (List.filter_sublist _)).trans
          (List.filter_sublist _)

theorem pipeline_pairwise {α : Type} (key : α → Nat) (filtered : List α)
    (limit offset : Nat) :
    (((sortTsDesc key filtered).drop offset).take limit).Pairwise
      fun a b => key b ≤ key a :=
  (pairwise_sortTsDesc key filtered).sublist
    ((List.take_sublist _ _).trans (List.drop_sublist _ _))

theorem pipeline_stable {α : Type} (key : α → Nat) (filtered orig : List α)
    (hsub : List.Sublist filtered orig) (limit offset t : Nat) :
    List.Sublist
      ((((sortTsDesc key filtered).drop offset).take limit).filter fun e => key e == t)
      (orig.filter fun e => key e == t) := by
  have h1 : List.Sublist (((sortTsDesc key filtered).drop offset).take limit)
      (sortTsDesc key filtered) :=
    (List.take_sublist _ _).trans (List.drop_sublist _ _)
  have h2 := h1.filter (fun e => key e == t)
  rw [filter_sortTsDesc] at h2
  exact h2.trans (hsub.filter _)

/-- C3: for every buffer contents and every combination of filter
arguments, the sequences returned by `get_console_logs` and
`get_network_requests` are sorted by timestamp in descending order
(newest first), and returned entries with equal timestamps keep their
original insertion order: for every timestamp `t`, the returned entries
with timestamp `t` form a sublist of the buffer's entries with
timestamp `t`, the buffer being in arrival order. -/
theorem query_sorted_stable (logs : List ConsoleLogEntry) (reqs : List NetworkRequestEntry)
    (limit offset : Nat) (tf tt : Option Nat) (rt : Option PyStr) :
    ((get_console_logs logs limit offset tf tt).Pairwise
        (fun a b => b.timestamp ≤ a.timestamp) ∧
      ∀ t, List.Sublist
        ((get_console_logs logs limit offset tf tt).filter fun e => e.timestamp == t)
        (logs.filter fun e => e.timestamp == t)) ∧
    ((get_network_requests reqs limit offset tf tt rt).Pairwise
        (fun a b => b.timestamp ≤ a.timestamp) ∧
      ∀ t, List.Sublist
        ((get_network_requests reqs limit offset tf tt rt).filter fun e => e.timestamp == t)
        (reqs.filter fun e => e.timestamp == t)) := by
  refine ⟨⟨?_, ?_⟩, ?_, ?_⟩
  · exact pipeline_pairwise _ _ _ _
  · intro t
    exact pipeline_stable _ _ _ (consoleTimeFiltered_sublist logs tf tt) _ _ t
  · exact pipeline_pairwise _ _ _ _
  · intro t
    exact pipeline_stable _ _ _ (networkFiltered_sublist reqs tf tt rt) _ _ t

/-- C4: with a filtering stage of size `N`, `limit = L` and
`offset = O`, both query operations return exactly
`max 0 (min L (N - O))` entries (stated over the integers, matching the
claim's formula), and in particular return the empty list — not an
error — whenever `O ≥ N`. -/
theorem query_pagination_count (logs : List ConsoleLogEntry)
    (reqs : List NetworkRequestEntry) (limit offset : Nat) (tf tt : Option Nat)
    (rt : Option PyStr) :
    (((get_console_logs logs limit offset tf tt).length : Int) =
        max 0 (min (limit : Int)
          (((consoleTimeFiltered logs tf tt).length : Int) - (offset : Int))) ∧
      ((consoleTimeFiltered logs tf tt).length ≤ offset →
        get_console_logs logs limit offset tf tt = [])) ∧
    (((get_network_requests reqs limit offset tf tt rt).length : Int) =
        max 0 (min (limit : Int)
          (((networkFiltered reqs tf tt rt).length : Int) - (offset : Int))) ∧
      ((networkFiltered reqs tf tt rt).length ≤ offset →
        get_network_requests reqs limit offset tf tt rt = [])) := by
  have hc : (get_console_logs logs limit offset tf tt).length =
      min limit ((consoleTimeFiltered logs tf tt).length - offset) := by
    unfold get_console_logs
    rw [List.length_take, List.length_drop, length_sortTsDesc]
  have hn : (get_network_requests reqs limit offset tf tt rt).length =
      min limit ((networkFiltered reqs tf tt rt).length - offset) := by
    unfold get_network_requests
    rw [List.length_take, List.length_drop, length_sortTsDesc]
  refine ⟨⟨by omega, ?_⟩, by omega, ?_⟩
  · intro h
    unfold get_console_logs
    rw [List.drop_eq_nil_of_le, List.take_nil]
    rw [length_sortTsDesc]
    exact h
  · intro h
    unfold get_network_requests
    rw [List.drop_eq_nil_of_le, List.take_nil]
    rw [length_sortTsDesc]
    exact h

/-- Witness for C4: a one-entry buffer with `offset = 1 ≥ N = 1` yields
the empty list. -/
theorem query_pagination_count_witness :
    get_console_logs [logEntryW] 5 1 none none = [] :=
  (query_pagination_count [logEntryW] [] 5 1 none none none).1.2 (by decide)

/-- C5 (code-bug evaluation): on a page where the selector matches no
element, `get_element_text_content` propagates the `TimeoutError` raised
by `wait_for_selector` (its `if element else ""` guard is unreachable
for the default `visible` wait state), and `explore_element_dom` raises
`AttributeError` by calling `is_visible` on the `None` returned by
`query_selector` — neither degrades to an empty string / absent result
as the claim and the `main.py` docstring ("empty string if not found")
state. -/
theorem read_ops_raise_on_not_found :
    get_element_text_content emptyPage ("#missing".data) = Except.error SErr.timeoutError ∧
    explore_element_dom emptyPage ("#missing".data) 0 true 10 10 =
      Except.error SErr.attributeError :=
  ⟨rfl, rfl⟩

/-- C6 (code-bug evaluation): when `page.close()` raises during
`stop()`, the single surrounding `try`/`except` swallows the error but
aborts every remaining teardown step: the context, browser and
playwright handles all stay live and neither event buffer is cleared —
the state comes back unchanged, contradicting both the claim and the
code's own `# Continue with cleanup despite errors` comment.  (Last
conjunct: when no step raises, the teardown does release everything, in
order, and clears both buffers.) -/
theorem stop_aborts_on_first_error :
    stop runningState pageCloseFails = runningState ∧
    (stop runningState pageCloseFails).hasContext = true ∧
    (stop runningState pageCloseFails).hasBrowser = true ∧
    (stop runningState pageCloseFails).hasPlaywright = true ∧
    (stop runningState pageCloseFails).consoleLogs ≠ [] ∧
    (stop runningState pageCloseFails).networkRequests ≠ [] ∧
    stop runningState noStopFailure = ⟨false, false, false, false, false, [], []⟩ := by
  refine ⟨rfl, rfl, rfl, rfl, ?_, ?_, rfl⟩ <;> decide

/-- C7 (code-bug evaluation): the `wait_for_element` tool does not
convert wait failures to a boolean at the facade boundary — a timed-out
wait propagates `TimeoutError` (there is no `try`/`except` in `main.py`
or in the client), and a `hidden`/`detached` wait that succeeds returns
`None` from Playwright, which the tool maps to `False` even though the
element did reach the requested state; only the element-returning
success is mapped to `True`. -/
theorem wait_for_element_no_boolean_conversion :
    wait_for_element_tool WaitOutcome.timedOut = Except.error SErr.timeoutError ∧
    wait_for_element_tool WaitOutcome.satisfiedNone = Except.ok false ∧
    ∀ e, wait_for_element_tool (WaitOutcome.satisfiedWith e) = Except.ok true :=
  ⟨rfl, rfl, fun _ => rfl⟩

/-! Helper lemmas about `pySplit` (Python `str.split`). -/

theorem pySplit_ne_nil (sep : Char) (l : PyStr) : pySplit sep l ≠ [] := by
  induction l with
  | nil => simp [pySplit]
  | cons c cs ih =>
    by_cases h : c = sep
    · simp [pySplit, h]
    · simp only [pySplit, if_neg h]
      rcases hs : pySplit sep cs with _ | ⟨p, ps⟩ <;> simp

theorem pySplit_getD_zero (sep : Char) (l : PyStr) :
    (pySplit sep l).getD 0 [] = l.takeWhile (fun x => !(x == sep)) := by
  induction l with
  | nil => rfl
  | cons c cs ih =>
    by_cases h : c = sep
    · subst h
      simp [pySplit, List.takeWhile_cons]
    · simp only [pySplit, if_neg h]
      rcases hs : pySplit sep cs with _ | ⟨p, ps⟩
      · exact absurd hs (pySplit_ne_nil sep cs)
      · have ih2 : p = cs.takeWhile (fun x => !(x == sep)) := by
          rw [hs] at ih
          simpa using ih
        have hc : (!(c == sep)) = true := by simp [h]
        simp [hs, List.takeWhile_cons, hc, ih2]

theorem pySplit_shape (sep : Char) (l : PyStr) (h : sep ∈ l) :
    pySplit sep l =
      l.takeWhile (fun x => !(x == sep)) ::
        pySplit sep ((l.dropWhile (fun x => !(x == sep))).drop 1) := by
  induction l with
  | nil => cases h
  | cons c cs ih =>
    by_cases hc : c = sep
    · subst hc
      simp [pySplit, List.takeWhile_cons, List.dropWhile_cons]
    · have hmem : sep ∈ cs := by
        rcases List.mem_cons.mp h with h1 | h1
        · exact absurd h1.symm hc
        · exact h1
      have hcb : (!(c == sep)) = true := by simp [hc]
      simp only [pySplit, if_neg hc]
      rcases hs : pySplit sep cs with _ | ⟨p, ps⟩
      · exact absurd hs (pySplit_ne_nil sep cs)
      · have ih2 := ih hmem
        rw [hs] at ih2
        simp only [List.cons.injEq] at ih2
        obtain ⟨hp, hps⟩ := ih2
        simp [List.takeWhile_cons, List.dropWhile_cons, hcb, hp, hps]

/-- C9 counterexample: for `"Control+Shift+a"` the code presses
`parts[1] = "Shift"` with modifier `"Control"` — not the
first-`'+'`-split remainder `"Shift+a"` that the claim specifies. -/
theorem press_key_first_split_cex :
    press_key ("Control+Shift+a".data) =
      KeyAction.withModifier ("Control".data) ("Shift".data) ∧
    press_key ("Control+Shift+a".data) ≠
      KeyAction.withModifier ("Control".data) ("Shift+a".data) := by
  constructor <;> decide

/-- C9 (amended): for a key string containing `'+'`, `press_key` presses
with modifier the text before the first `'+'` and with key the text
between the first `'+'` and the following `'+'` (or the end of the
string); any text after a second `'+'` is dropped.  A key string without
`'+'` is a plain key press with no modifier. -/
theorem press_key_amended (key : PyStr) :
    ('+' ∈ key →
      press_key key = KeyAction.withModifier (key.takeWhile fun x => !(x == '+'))
        (((key.dropWhile fun x => !(x == '+')).drop 1).takeWhile fun x => !(x == '+'))) ∧
    ('+' ∉ key → press_key key = KeyAction.plain key) := by
  constructor
  · intro h
    unfold press_key
    rw [if_pos h, pySplit_shape '+' key h]
    exact congrArg (KeyAction.withModifier _)
      (pySplit_getD_zero '+' ((key.dropWhile fun x => !(x == '+')).drop 1))
  · intro h
    unfold press_key
    rw [if_neg h]

/-- Witness for C9's amended statement at `"Control+a"`. -/
theorem press_key_amended_witness :
    press_key ("Control+a".data) = KeyAction.withModifier ("Control".data) ("a".data) := by
  have h := (press_key_amended ("Control+a".data)).1 (by decide)
  exact h.trans (by decide)

/-- An invisible node is summarized to `None` whenever `visible_only` is
set (the visibility guard precedes every capability call that could
fail). -/
theorem summarize_invisible (node : DomNode) (d : Nat) (vo : Bool) (mD mC : Nat)
    (hvo : vo = true) (hvis : node.visible = false) :
    summarize node d vo mD mC = Except.ok none := by
  cases node with
  | mk tag vis ie it tc idA clsA tyA sel er ch =>
    simp only [DomNode.visible] at hvis
    subst hvis hvo
    simp [summarize]

theorem client_find_elements_length_get (matched : List DomNode) (mD mC : Nat) (vo : Bool) :
    ∀ l, client_find_elements matched mD mC vo = Except.ok l →
      l.length = matched.length ∧
      ∀ (i : Nat) (h1 : i < matched.length) (h2 : i < l.length),
        summarize (matched.get ⟨i, h1⟩) 0 vo mD mC = Except.ok (l.get ⟨i, h2⟩) := by
  induction matched with
  | nil =>
    intro l h
    simp only [client_find_elements] at h
    obtain rfl : l = [] := by simpa using h.symm
    exact ⟨rfl, fun i h1 _ => absurd h1 (Nat.not_lt_zero i)⟩
  | cons e rest ih =>
    intro l h
    simp only [client_find_elements] at h
    cases hs : summarize e 0 vo mD mC with
    | error err => rw [hs] at h; simp at h
    | ok s =>
      rw [hs] at h
      cases hr : client_find_elements rest mD mC vo with
      | error err => rw [hr] at h; simp at h
      | ok tl =>
        rw [hr] at h
        simp only [Except.ok.injEq] at h
        subst h
        obtain ⟨hlen, hget⟩ := ih tl hr
        refine ⟨by simp [hlen], ?_⟩
        intro i h1 h2
        cases i with
        | zero => exact hs
        | succ j =>
          exact hget j (Nat.lt_of_succ_lt_succ (by simpa using h1))
            (Nat.lt_of_succ_lt_succ (by simpa using h2))

/-- C10: when `client_find_elements` succeeds, the result has one entry
per matched element (so its length counts matches the summarizer
rejected), entry `i` is exactly the summarizer's output for match `i` —
`None` in place when the element was rejected, in particular whenever
`visible_only` is set and the element is invisible — and the `main.py`
tool returns the `offset`/`limit` slice of that placeholder-carrying
list. -/
theorem find_elements_none_placeholders (matched : List DomNode) (mD mC : Nat) (vo : Bool)
    (limit offset : Nat) (l : List (Option Snapshot))
    (h : client_find_elements matched mD mC vo = Except.ok l) :
    l.length = matched.length ∧
    (∀ (i : Nat) (h1 : i < matched.length) (h2 : i < l.length),
      summarize (matched.get ⟨i, h1⟩) 0 vo mD mC = Except.ok (l.get ⟨i, h2⟩)) ∧
    (∀ (i : Nat) (h1 : i < matched.length) (h2 : i < l.length),
      vo = true → (matched.get ⟨i, h1⟩).visible = false → l.get ⟨i, h2⟩ = none) ∧
    main_find_elements matched mD mC vo limit offset =
      Except.ok ((l.drop offset).take limit) := by
  obtain ⟨hlen, hget⟩ := client_find_elements_length_get matched mD mC vo l h
  refine ⟨hlen, hget, ?_, ?_⟩
  · intro i h1 h2 hvo hvis
    have h0 := hget i h1 h2
    rw [summarize_invisible _ _ _ _ _ hvo hvis] at h0
    simpa using h0.symm
  · unfold main_find_elements
    rw [h]
    cases l with
    | nil => simp
    | cons a as => simp

/-- Witness for C10: a single invisible match produces the
placeholder list `[None]`, whose length still counts the match. -/
theorem find_elements_none_placeholders_witness :
    ([(none : Option Snapshot)]).length = [domInvisible].length :=
  (find_elements_none_placeholders [domInvisible] 10 10 true 10 0 [none]
    (by simp [client_find_elements, domInvisible, summarize])).1

/-- C2: the summarizer's text post-processing, applied after trimming
surrounding whitespace: a trimmed text of at most 80 characters is
stored unchanged, and a longer one is replaced by exactly its first 77
characters followed by the 3-character ellipsis, for a total length of
exactly 80. -/
theorem processText_truncation (raw : PyStr) :
    ((pyStrip raw).length ≤ 80 → processText raw = pyStrip raw) ∧
    (80 < (pyStrip raw).length →
      processText raw = (pyStrip raw).take 77 ++ ellipsisMarker ∧
      ellipsisMarker.length = 3 ∧
      (processText raw).length = 80) := by
  unfold processText truncText
  constructor
  · intro h
    rw [if_neg (by omega)]
  · intro h
    rw [if_pos h]
    refine ⟨rfl, rfl, ?_⟩
    rw [List.length_append, List.length_take]
    have h3 : ellipsisMarker.length = 3 := rfl
    omega

/-- Witness for C2 at an 81-character trimmed text. -/
theorem processText_truncation_witness :
    processText (List.replicate 81 'a') =
      (pyStrip (List.replicate 81 'a')).take 77 ++ ellipsisMarker ∧
    ellipsisMarker.length = 3 ∧
    (processText (List.replicate 81 'a')).length = 80 :=
  (processText_truncation (List.replicate 81 'a')).2 (by decide)

/-- C8 counterexample: a visible root whose (visible) child's capability
calls raise the engine staleness error — the whole summarization call
surfaces the staleness error, instead of omitting the child and
returning a best-effort partial tree. -/
theorem summarize_stale_cex :
    summarize (DomNode.mk ("div".data) true true (some []) [] [] [] none [] false
        [DomNode.mk ("span".data) true true (some []) [] [] [] none [] true []])
      0 true 10 10 = Except.error SErr.staleElement := by
  simp [summarize, summarizeList]

/-- C8 (amended): a staleness error raised by a node's capability calls
is not recovered: whenever the traversal reaches the node (depth within
budget, visibility check passed), the error propagates and the whole
summarization fails — the node is not silently omitted.  Only a failure
of the `inner_text` extraction is recovered, by falling back to the
node's raw text content; that node stays included (unless the child
loop errors). -/
theorem summarize_stale_amended :
    (∀ (tag : PyStr) (vis isElem : Bool) (it : Option PyStr) (tc idA clsA : PyStr)
        (tyA : Option PyStr) (sel : PyStr) (children : List DomNode) (d : Nat) (vo : Bool)
        (mD mC : Nat), ¬ mD < d → (vo = true → vis = true) →
        summarize (DomNode.mk tag vis isElem it tc idA clsA tyA sel true children)
          d vo mD mC = Except.error SErr.staleElement) ∧
    (∀ (tag : PyStr) (vis : Bool) (tc idA clsA : PyStr) (tyA : Option PyStr) (sel : PyStr)
        (children : List DomNode) (d : Nat) (vo : Bool) (mD mC : Nat),
        ¬ mD < d → (vo = true → vis = true) →
        (∃ e, summarize (DomNode.mk tag vis true none tc idA clsA tyA sel false children)
            d vo mD mC = Except.error e) ∨
        (∃ s, summarize (DomNode.mk tag vis true none tc idA clsA tyA sel false children)
            d vo mD mC = Except.ok (some s) ∧ Snapshot.text s = processText tc)) := by
  constructor
  · intro tag vis isElem it tc idA clsA tyA sel children d vo mD mC hd hv
    have hvv : ¬ ((vo && !vis) = true) := by
      cases vo
      · simp
      · simp [hv rfl]
    simp only [summarize]
    rw [if_neg hd, if_neg hvv]
    simp
  · intro tag vis tc idA clsA tyA sel children d vo mD mC hd hv
    have hvv : ¬ ((vo && !vis) = true) := by
      cases vo
      · simp
      · simp [hv rfl]
    have heq : summarize (DomNode.mk tag vis true none tc idA clsA tyA sel false children)
        d vo mD mC =
        match summarizeList children mC (d + 1) vo mD mC with
        | .error e => .error e
        | .ok kids =>
          .ok (some (Snapshot.mk tag (extractText none tc) idA clsA tyA sel kids)) := by
      simp only [summarize]
      rw [if_neg hd, if_neg hvv]
      rfl
    cases hsl : summarizeList children mC (d + 1) vo mD mC with
    | error e =>
      left
      exact ⟨e, by rw [heq, hsl]⟩
    | ok kids =>
      right
      refine ⟨Snapshot.mk tag (extractText none tc) idA clsA tyA sel kids, ?_, rfl⟩
      rw [heq, hsl]

/-- Witness for C8's amended statement: a stale node reached by the
traversal makes the whole call error. -/
theorem summarize_stale_amended_witness :
    summarize (DomNode.mk ("b".data) true true (some []) [] [] [] none [] true [])
      0 true 10 10 = Except.error SErr.staleElement :=
  summarize_stale_amended.1 ("b".data) true true (some []) [] [] [] none [] [] 0 true 10 10
    (by decide) (fun _ => rfl)

/-- Weakening: relating the snapshots to a superset of candidate DOM
nodes preserves `FromVisibleKids`. -/
theorem FromVisibleKids_weaken : ∀ (cs : List Snapshot) (m0 : DomNode) (ms : List DomNode),
    FromVisibleKids ms cs → FromVisibleKids (m0 :: ms) cs := by
  intro cs
  induction cs with
  | nil =>
    intro m0 ms _
    exact FromVisibleKids.nil _
  | cons c cs ih =>
    intro m0 ms h
    cases h with
    | cons _ _ _ m hm hfv hrest =>
      exact FromVisibleKids.cons _ _ _ m (List.mem_cons_of_mem _ hm) hfv (ih m0 ms hrest)

/-- Mutual structural facts about `summarize`/`summarizeList`, proved by
strong induction on the node size: a returned snapshot has
`ChildrenBounded`, height at most `maxDepth + 1 - depth`, and (when
`visible_only` is set) summarizes only visibility-passing nodes; a
returned child list has at most `budget` entries, all with the same
bounds, and relates to the candidate children via `FromVisibleKids`. -/
theorem summarize_aux (n : Nat) :
    (∀ node : DomNode, sizeOf node ≤ n →
      ∀ (d : Nat) (vo : Bool) (mD mC : Nat) (s : Snapshot),
      summarize node d vo mD mC = Except.ok (some s) →
      ChildrenBounded mC s ∧ DepthBounded (mD + 1 - d) s ∧
        (vo = true → FromVisible node s)) ∧
    (∀ kids : List DomNode, sizeOf kids ≤ n →
      ∀ (b d : Nat) (vo : Bool) (mD mC : Nat) (l : List Snapshot),
      summarizeList kids b d vo mD mC = Except.ok l →
      l.length ≤ b ∧ (∀ s ∈ l, ChildrenBounded mC s ∧ DepthBounded (mD + 1 - d) s) ∧
        (vo = true → FromVisibleKids kids l)) := by
  induction n with
  | zero =>
    constructor
    · intro node hsz
      exfalso
      have hpos : 0 < sizeOf node := by
        cases node with
        | mk tag vis ie it tc idA clsA tyA sel er ch =>
          simp only [DomNode.mk.sizeOf_spec]
          omega
      omega
    · intro kids hsz
      exfalso
      have hpos : 0 < sizeOf kids := by
        cases kids with
        | nil =>
          simp only [List.nil.sizeOf_spec]
          omega
        | cons c cs =>
          simp only [List.cons.sizeOf_spec]
          omega
      omega
  | succ n ih =>
    obtain ⟨ihP, ihQ⟩ := ih
    constructor
    · intro node hsz d vo mD mC s h
      cases node with
      | mk tag vis ie it tc idA clsA tyA sel er ch =>
        have hch : sizeOf ch ≤ n := by
          simp only [DomNode.mk.sizeOf_spec] at hsz
          omega
        simp only [summarize] at h
        by_cases h1 : mD < d
        · rw [if_pos h1] at h
          exact absurd h (by simp)
        · rw [if_neg h1] at h
          by_cases h2 : (vo && !vis) = true
          · rw [if_pos h2] at h
            exact absurd h (by simp)
          · rw [if_neg h2] at h
            by_cases h3 : er = true
            · rw [if_pos h3] at h
              exact absurd h (by simp)
            · rw [if_neg h3] at h
              cases hsl : summarizeList ch mC (d + 1) vo mD mC with
              | error e =>
                rw [hsl] at h
                exact absurd h (by simp)
              | ok kids =>
                rw [hsl] at h
                simp only [Except.ok.injEq, Option.some.injEq] at h
                subst h
                obtain ⟨hlen, hall, hfvk⟩ := ihQ ch hch mC (d + 1) vo mD mC kids hsl
                refine ⟨?_, ?_, ?_⟩
                · exact ChildrenBounded.mk _ hlen (fun c hc => (hall c hc).1)
                · have hde : mD + 1 - d = (mD + 1 - (d + 1)) + 1 := by omega
                  rw [hde]
                  exact DepthBounded.mk _ _ (fun c hc => (hall c hc).2)
                · intro hvo
                  refine FromVisible.mk _ _ ?_ (hfvk hvo)
                  subst hvo
                  simp only [Bool.true_and] at h2
                  cases vis
                  · exact absurd rfl h2
                  · rfl
    · intro kids hsz b d vo mD mC l h
      cases kids with
      | nil =>
        simp only [summarizeList] at h
        obtain rfl : l = [] := by simpa using h.symm
        exact ⟨Nat.zero_le b, fun s hs => absurd hs (List.not_mem_nil s),
          fun _ => FromVisibleKids.nil _⟩
      | cons c cs =>
        cases b with
        | zero =>
          simp only [summarizeList] at h
          obtain rfl : l = [] := by simpa using h.symm
          exact ⟨Nat.le_refl 0, fun s hs => absurd hs (List.not_mem_nil s),
            fun _ => FromVisibleKids.nil _⟩
        | succ b =>
          have hc : sizeOf c ≤ n := by
            simp only [List.cons.sizeOf_spec] at hsz
            omega
          have hcs : sizeOf cs ≤ n := by
            simp only [List.cons.sizeOf_spec] at hsz
            omega
          simp only [summarizeList] at h
          cases hs : summarize c d vo mD mC with
          | error e =>
            rw [hs] at h
            exact absurd h (by simp)
          | ok so =>
            rw [hs] at h
            cases so with
            | none =>
              dsimp only at h
              obtain ⟨hlen, hall, hfv⟩ := ihQ cs hcs b d vo mD mC l h
              exact ⟨Nat.le_succ_of_le hlen, hall,
                fun hvo => FromVisibleKids_weaken l c cs (hfv hvo)⟩
            | some s0 =>
              dsimp only at h
              cases hr : summarizeList cs b d vo mD mC with
              | error e =>
                rw [hr] at h
                exact absurd h (by simp)
              | ok rest =>
                rw [hr] at h
                simp only [Except.ok.injEq] at h
                subst h
                obtain ⟨hcb, hdb, hfv1⟩ := ihP c hc d vo mD mC s0 hs
                obtain ⟨hlen, hall, hfvr⟩ := ihQ cs hcs b d vo mD mC rest hr
                refine ⟨by simpa using Nat.succ_le_succ hlen, ?_, ?_⟩
                · intro s hs2
                  rcases List.mem_cons.mp hs2 with rfl | hmem
                  · exact ⟨hcb, hdb⟩
                  · exact hall s hmem
                · intro hvo
                  exact FromVisibleKids.cons _ _ _ c (List.mem_cons_self c cs) (hfv1 hvo)
                    (FromVisibleKids_weaken rest c cs (hfvr hvo))

/-- C1: whenever `_summarize_element` (entered at depth 0, as by
`explore_page_dom`, `explore_element_dom` and `find_elements`) returns a
snapshot, every node of the snapshot tree has at most `max_children`
children, no node lies deeper than `max_depth` below the summarization
root (the tree's height is at most `max_depth + 1`), and when
`visible_only` is set every included node summarizes a DOM node that
passed the `is_visible()` predicate. -/
theorem summarize_respects_bounds (node : DomNode) (vo : Bool) (mD mC : Nat) (s : Snapshot)
    (h : summarize node 0 vo mD mC = Except.ok (some s)) :
    ChildrenBounded mC s ∧ DepthBounded (mD + 1) s ∧ (vo = true → FromVisible node s) := by
  have h2 := (summarize_aux (sizeOf node)).1 node (Nat.le_refl _) 0 vo mD mC s h
  simpa using h2

/-- Witness for C1 at a concrete visible element node. -/
theorem summarize_respects_bounds_witness :
    ChildrenBounded 10 snapW ∧ DepthBounded 11 snapW ∧
      (true = true → FromVisible domW snapW) := by
  have h : summarize domW 0 true 10 10 = Except.ok (some snapW) := by
    simp [domW, snapW, summarize, summarizeList, extractText, processText, pyStrip, truncText]
  have h2 := summarize_respects_bounds domW true 10 10 snapW h
  simpa using h2

end BrowserMcp
